import Mathlib

/-!
Verification development for the EDI batch-compare tool
(src/batchCompareWithMaskedReport.py).  Documents are modelled as lists of
characters; the Python single-character split and join, strip, dictionary
defaults and exception flow are embedded explicitly.
-/

set_option linter.unusedVariables false

deriving instance DecidableEq for Except

namespace EdiCompare

/-- Strings are modelled as lists of characters. -/
abbrev Str := List Char

/-- Helper for splitOnChar: prepend a character to the first chunk. -/
def consHead (x : Char) : List Str → List Str
  | [] => [[x]]
  | h :: t => (x :: h) :: t

/-- Python single-character str.split: always returns at least one chunk,
    and splitting the empty string yields one empty chunk. -/
def splitOnChar (c : Char) : Str → List Str
  | [] => [[]]
  | x :: xs => if x = c then [] :: splitOnChar c xs else consHead x (splitOnChar c xs)

/-- Python single-character str.join over a list of chunks. -/
def joinWith (c : Char) : List Str → Str
  | [] => []
  | [x] => x
  | x :: y :: t => x ++ c :: joinWith c (y :: t)

/-- Characters removed by Python str.strip() (ASCII whitespace). -/
def isPySpace (c : Char) : Bool :=
  c = ' ' || c = '\t' || c = '\n' || c = '\r' || c = '\x0b' || c = '\x0c'

/-- Python str.strip(): drop leading and trailing whitespace. -/
def pyStrip (s : Str) : Str :=
  ((s.dropWhile isPySpace).reverse.dropWhile isPySpace).reverse

/-- Python str.startswith for the literal prefix ISA. -/
def startsWithISA : Str → Bool
  | 'I' :: 'S' :: 'A' :: _ => true
  | _ => false

/-- Convenience conversion from Lean string literals. -/
def str (s : String) : Str := s.toList

/-- Delimiter set derived from the ISA segment (the separators dictionary). -/
structure Separators where
  data_element : Char
  sub_element : Char
  segment : Char
deriving DecidableEq

/-- Interchange header fields extracted from the ISA segment; every field
    defaults to the empty string, mirroring dict.get with default. -/
structure IsaFields where
  sender_qualifier : Str
  sender_id : Str
  receiver_qualifier : Str
  receiver_id : Str
  control_number : Str
deriving DecidableEq

/-- Functional group header fields extracted from the GS segment. -/
structure GsFields where
  gs01 : Str
  gs02 : Str
  gs03 : Str
deriving DecidableEq

def emptyIsa : IsaFields := ⟨[], [], [], [], []⟩

def emptyGs : GsFields := ⟨[], [], []⟩

/-- Result dictionary of parse_edi. -/
structure ParsedEdi where
  separators : Separators
  isa : IsaFields
  gs : GsFields
  inner_payload : List Str
deriving DecidableEq

/-- Exceptions parse_edi can raise: the explicit ValueError for a missing
    ISA segment, and the Python IndexError from an out-of-range subscript. -/
inductive EdiError where
  | missingISA
  | indexError
deriving DecidableEq

/-- ISA header extraction (fields at indices 5,6,7,8,13, guarded by length,
    sender and receiver ids stripped). -/
def isaFromElements (es : List Str) : IsaFields :=
  { sender_qualifier := if 5 < es.length then es.getD 5 [] else []
    sender_id := if 6 < es.length then pyStrip (es.getD 6 []) else []
    receiver_qualifier := if 7 < es.length then es.getD 7 [] else []
    receiver_id := if 8 < es.length then pyStrip (es.getD 8 []) else []
    control_number := if 13 < es.length then es.getD 13 [] else [] }

/-- GS header extraction (fields at indices 1,2,3, guarded by length). -/
def gsFromElements (es : List Str) : GsFields :=
  { gs01 := if 1 < es.length then es.getD 1 [] else []
    gs02 := if 2 < es.length then es.getD 2 [] else []
    gs03 := if 3 < es.length then es.getD 3 [] else [] }

/-- Mutable loop state of the segment loop in parse_edi. -/
structure ParseState where
  isa : IsaFields
  gs : GsFields
  inner_payload : List Str
  capture_payload : Bool
deriving DecidableEq

/-- One iteration of the segment loop in parse_edi. -/
def stepSegment (sep : Char) (st : ParseState) (segment : Str) : ParseState :=
  match splitOnChar sep segment with
  | [] => st
  | e0 :: rest =>
    if e0 = [] then st
    else if e0 = ['I', 'S', 'A'] then { st with isa := isaFromElements (e0 :: rest) }
    else if e0 = ['G', 'S'] then { st with gs := gsFromElements (e0 :: rest) }
    else if e0 = ['S', 'T'] then { st with capture_payload := true }
    else if e0 = ['S', 'E'] then { st with capture_payload := false }
    else if st.capture_payload ∧ segment ≠ [] then
      { st with inner_payload := st.inner_payload ++ [segment] }
    else st

/-- The parse_edi function: delimiter extraction from the first ISA-prefixed
    segment, then the segment loop collecting headers and the payload. -/
def parse_edi (edi_content : Str) : Except EdiError ParsedEdi :=
  match (splitOnChar '~' edi_content).find? startsWithISA with
  | none => .error .missingISA
  | some isa_segment =>
    match isa_segment.get? 3 with
    | none => .error .indexError
    | some data_element_sep =>
      match (if 106 ≤ isa_segment.length then
               isa_segment.get? (isa_segment.length - 2)
             else some ':') with
      | none => .error .indexError
      | some sub_element_sep =>
        let segments := splitOnChar '~' edi_content
        let final := segments.foldl (stepSegment data_element_sep)
          ⟨emptyIsa, emptyGs, [], false⟩
        .ok ⟨⟨data_element_sep, sub_element_sep, '~'⟩,
             final.isa, final.gs, final.inner_payload⟩

/-- Run of hash characters used for masking. -/
def hashRun (n : Nat) : Str := List.replicate n '#'

/-- Python assignment pattern in the DTM branch: when index i is present and
    the element there is non-empty, overwrite it with a same-length hash run. -/
def maskAt (elements : List Str) (i : Nat) : Option (List Str) :=
  if i < elements.length then
    match elements.get? i with
    | none => none
    | some e => if e ≠ [] then some (elements.set i (hashRun e.length)) else some elements
  else some elements

/-- One iteration of the loop of mask_dates_times; none models the continue
    branches (empty split result, or an IndexError caught by the except). -/
def mask_one_segment (sep : Char) (seg : Str) : Option Str :=
  match splitOnChar sep seg with
  | [] => none
  | es@(tag :: _) =>
    if tag = ['B', 'E', 'G'] ∧ 5 < es.length then
      match es.get? 5 with
      | none => none
      | some e5 => some (joinWith sep (es.set 5 (hashRun e5.length)))
    else if tag = ['D', 'T', 'M'] then
      match maskAt es 2 with
      | none => none
      | some es1 =>
        match maskAt es1 3 with
        | none => none
        | some es2 => some (joinWith sep es2)
    else some (joinWith sep es)

/-- The mask_dates_times function. -/
def mask_dates_times (segments : List Str) (data_element_sep : Char) : List Str :=
  segments.filterMap (mask_one_segment data_element_sep)

/-- Boolean verdict fields of the record returned by compare_pair. -/
structure CompareOutcome where
  isa_match : Bool
  gs_match : Bool
  masked_match : Bool
deriving DecidableEq

/-- The compare_pair function, restricted to its semantic content (the three
    boolean verdicts); parse errors propagate to the caller. -/
def compare_pair (file1_name file2_name file1_content file2_content : Str) :
    Except EdiError CompareOutcome :=
  match parse_edi file1_content with
  | .error e => .error e
  | .ok parsed1 =>
    match parse_edi file2_content with
    | .error e => .error e
    | .ok parsed2 =>
      let isa_match := decide (parsed1.isa.sender_qualifier = parsed2.isa.sender_qualifier ∧
        parsed1.isa.sender_id = parsed2.isa.sender_id ∧
        parsed1.isa.receiver_qualifier = parsed2.isa.receiver_qualifier ∧
        parsed1.isa.receiver_id = parsed2.isa.receiver_id)
      let gs_match := decide (parsed1.gs.gs01 = parsed2.gs.gs01 ∧
        parsed1.gs.gs02 = parsed2.gs.gs02 ∧ parsed1.gs.gs03 = parsed2.gs.gs03)
      let masked1 := joinWith '\n'
        (mask_dates_times parsed1.inner_payload parsed1.separators.data_element)
      let masked2 := joinWith '\n'
        (mask_dates_times parsed2.inner_payload parsed2.separators.data_element)
      .ok ⟨isa_match, gs_match, decide (masked1 = masked2)⟩

/-- A named document handed to the batch loop. -/
structure NamedDoc where
  name : Str
  content : Str
deriving DecidableEq

/-- Python os.path.basename on POSIX: the part after the last slash. -/
def basename (p : Str) : Str := (splitOnChar '/' p).getLastD []

/-- Python re.sub removing every line feed and every carriage-return that
    directly precedes one, as done before each compare_pair call. -/
def stripNewlines : Str → Str
  | [] => []
  | '\r' :: '\n' :: rest => stripNewlines rest
  | '\n' :: rest => stripNewlines rest
  | c :: rest => c :: stripNewlines rest

/-- The to_files_map dictionary keyed by basename; a later document with the
    same basename overwrites an earlier one, so lookup finds the last. -/
def to_files_map (to_files : List NamedDoc) (k : Str) : Option NamedDoc :=
  (to_files.filter (fun f => decide (basename f.name = k))).getLast?

/-- One record of the batch results: the pairing key, the derived target
    name, and the outcome of the single compare_pair invocation. -/
structure BatchEntry where
  uuid : Str
  to_name : Str
  outcome : Except EdiError CompareOutcome
deriving DecidableEq

/-- One iteration of the batch loop over from_files: none models the three
    continue branches (no underscore, fewer than two parts, no matching
    target). -/
def process_from_file (to_files : List NamedDoc) (from_file : NamedDoc) :
    Option BatchEntry :=
  let filename := basename from_file.name
  if '_' ∈ filename then
    let parts := splitOnChar '_' filename
    if parts.length < 2 then none
    else
      let uuid := (splitOnChar '.' (parts.getLastD [])).headD []
      let matching_to_name :=
        parts.headD [] ++ ['b', 'l', 'a', '_'] ++ uuid ++ ['.', 't', 'x', 't']
      match to_files_map to_files matching_to_name with
      | none => none
      | some to_file =>
        some ⟨uuid, matching_to_name,
          compare_pair filename matching_to_name
            (stripNewlines from_file.content) (stripNewlines to_file.content)⟩
  else none

/-- The whole batch loop: the ordered sequence of records produced, one per
    matched source document. -/
def batch_process (from_files to_files : List NamedDoc) : List BatchEntry :=
  from_files.filterMap (process_from_file to_files)

/-- Modelled from the claim wording for the payload (capture toggled only by
    first elements ST and SE, every other segment captured while the flag is
    on); used to compare the claimed payload against the parsed one. -/
def claimC4step (sep : Char) (st : Bool × List Str) (segment : Str) :
    Bool × List Str :=
  let e0 := (splitOnChar sep segment).headD []
  if e0 = ['S', 'T'] then (true, st.2)
  else if e0 = ['S', 'E'] then (false, st.2)
  else if st.1 then (st.1, st.2 ++ [segment])
  else st

/-- Payload as the claim describes it, folded over the raw segments. -/
def claimC4payload (sep : Char) (segments : List Str) : List Str :=
  (segments.foldl (claimC4step sep) (false, [])).2

/-- Payload capture as the code performs it: besides the ST and SE toggles,
    segments with an empty first element and segments tagged ISA or GS are
    never captured. -/
def payloadStep (sep : Char) (st : Bool × List Str) (segment : Str) :
    Bool × List Str :=
  match splitOnChar sep segment with
  | [] => st
  | e0 :: _ =>
    if e0 = [] then st
    else if e0 = ['I', 'S', 'A'] then st
    else if e0 = ['G', 'S'] then st
    else if e0 = ['S', 'T'] then (true, st.2)
    else if e0 = ['S', 'E'] then (false, st.2)
    else if st.1 ∧ segment ≠ [] then (st.1, st.2 ++ [segment])
    else st

/-- Projection of the parser segment loop to the payload component. -/
def payloadOf (sep : Char) (segments : List Str) : List Str :=
  (segments.foldl (payloadStep sep) (false, [])).2

/-- Pure value computed by maskAt (maskAt never fails). -/
def maskIdx (es : List Str) (i : Nat) : List Str :=
  if i < es.length ∧ es.getD i [] ≠ [] then es.set i (hashRun (es.getD i []).length)
  else es

/-- Pure value computed by mask_one_segment (it never fails either). -/
def maskPure (sep : Char) (seg : Str) : Str :=
  if (splitOnChar sep seg).headD [] = ['B', 'E', 'G'] ∧ 5 < (splitOnChar sep seg).length then
    joinWith sep ((splitOnChar sep seg).set 5
      (hashRun (((splitOnChar sep seg).getD 5 [])).length))
  else if (splitOnChar sep seg).headD [] = ['D', 'T', 'M'] then
    joinWith sep (maskIdx (maskIdx (splitOnChar sep seg) 2) 3)
  else joinWith sep (splitOnChar sep seg)

/-- Concatenation of the per-chunk splits; describes re-splitting a join. -/
def flatSplit (c : Char) (es : List Str) : List Str :=
  (es.map (splitOnChar c)).flatten

/-- An all-hash chunk: equal to the hash run of its own length (the empty
    chunk qualifies). -/
def allHash (e : Str) : Prop := e = hashRun e.length

/-! Basic facts about splitOnChar and joinWith. -/

theorem consHead_ne_nil (x : Char) (L : List Str) : consHead x L ≠ [] := by
  cases L <;> simp [consHead]

theorem splitOnChar_ne_nil (c : Char) (s : Str) : splitOnChar c s ≠ [] := by
  induction s with
  | nil => simp [splitOnChar]
  | cons x xs ih =>
    simp only [splitOnChar]
    split
    · simp
    · exact consHead_ne_nil x _

theorem joinWith_cons (c : Char) (a : Str) (L : List Str) (h : L ≠ []) :
    joinWith c (a :: L) = a ++ c :: joinWith c L := by
  cases L with
  | nil => exact absurd rfl h
  | cons y t => rfl

theorem joinWith_consHead (c x : Char) (L : List Str) :
    joinWith c (consHead x L) = x :: joinWith c L := by
  cases L with
  | nil => rfl
  | cons h t => cases t <;> rfl

theorem joinWith_splitOnChar (c : Char) (s : Str) :
    joinWith c (splitOnChar c s) = s := by
  induction s with
  | nil => rfl
  | cons x xs ih =>
    simp only [splitOnChar]
    split
    · rename_i hx
      rw [joinWith_cons c [] _ (splitOnChar_ne_nil c xs), ih, hx]
      rfl
    · rw [joinWith_consHead, ih]

theorem consHead_append (x : Char) (A B : List Str) (h : A ≠ []) :
    consHead x (A ++ B) = consHead x A ++ B := by
  cases A with
  | nil => exact absurd rfl h
  | cons a t => rfl

theorem splitOnChar_append (c : Char) (xs ys : Str) :
    splitOnChar c (xs ++ c :: ys) = splitOnChar c xs ++ splitOnChar c ys := by
  induction xs with
  | nil => simp [splitOnChar]
  | cons x t ih =>
    simp only [List.cons_append, splitOnChar, List.append_eq]
    split
    · rw [ih]; rfl
    · rw [ih, consHead_append x _ _ (splitOnChar_ne_nil c t)]

theorem not_mem_of_mem_splitOnChar (c : Char) (s : Str) :
    ∀ e ∈ splitOnChar c s, c ∉ e := by
  induction s with
  | nil =>
    intro e he
    simp only [splitOnChar, List.mem_singleton] at he
    subst he
    simp
  | cons x xs ih =>
    intro e he
    simp only [splitOnChar] at he
    by_cases hx : x = c
    · rw [if_pos hx] at he
      rcases List.mem_cons.mp he with h1 | h1
      · subst h1; simp
      · exact ih e h1
    · rw [if_neg hx] at he
      obtain ⟨hd, tl, hsplit⟩ := List.exists_cons_of_ne_nil (splitOnChar_ne_nil c xs)
      rw [hsplit] at he
      simp only [consHead] at he
      have hhd : c ∉ hd := by
        have hmem : hd ∈ splitOnChar c xs := by
          rw [hsplit]; exact List.mem_cons_self hd tl
        exact ih hd hmem
      rcases List.mem_cons.mp he with h1 | h1
      · subst h1
        intro hc
        rcases List.mem_cons.mp hc with h2 | h2
        · exact hx h2.symm
        · exact hhd h2
      · have hmem : e ∈ splitOnChar c xs := by
          rw [hsplit]; exact List.mem_cons_of_mem hd h1
        exact ih e hmem

theorem splitOnChar_of_not_mem (c : Char) (s : Str) (h : c ∉ s) :
    splitOnChar c s = [s] := by
  induction s with
  | nil => rfl
  | cons x xs ih =>
    have hx : ¬ x = c := fun hx => h (List.mem_cons.mpr (Or.inl hx.symm))
    have hxs : c ∉ xs := fun hc => h (List.mem_cons_of_mem x hc)
    simp only [splitOnChar, if_neg hx, ih hxs]
    rfl

theorem splitOnChar_replicate (c : Char) (k : Nat) :
    splitOnChar c (List.replicate k c) = List.replicate (k + 1) ([] : Str) := by
  induction k with
  | zero => rfl
  | succ n ih =>
    rw [List.replicate_succ]
    simp only [splitOnChar, if_pos rfl, ih]
    rfl

theorem flatSplit_nil (c : Char) : flatSplit c [] = [] := rfl

theorem flatSplit_cons (c : Char) (e : Str) (es : List Str) :
    flatSplit c (e :: es) = splitOnChar c e ++ flatSplit c es := by
  simp [flatSplit]

theorem flatSplit_append (c : Char) (A B : List Str) :
    flatSplit c (A ++ B) = flatSplit c A ++ flatSplit c B := by
  simp [flatSplit]

theorem splitOnChar_joinWith (c : Char) (es : List Str) (h : es ≠ []) :
    splitOnChar c (joinWith c es) = flatSplit c es := by
  induction es with
  | nil => exact absurd rfl h
  | cons a L ih =>
    cases L with
    | nil => simp [joinWith, flatSplit]
    | cons y t =>
      rw [joinWith_cons c a _ (by simp), splitOnChar_append, ih (by simp)]
      simp [flatSplit_cons]

theorem flatSplit_of_sepfree (c : Char) (X : List Str) (h : ∀ e ∈ X, c ∉ e) :
    flatSplit c X = X := by
  induction X with
  | nil => rfl
  | cons a t ih =>
    rw [flatSplit_cons, splitOnChar_of_not_mem c a (h a (List.mem_cons_self a t)),
      ih (fun e he => h e (List.mem_cons_of_mem a he))]
    rfl

theorem splitOnChar_joinWith_sepfree (c : Char) (es : List Str) (h : es ≠ [])
    (hfree : ∀ e ∈ es, c ∉ e) : splitOnChar c (joinWith c es) = es := by
  rw [splitOnChar_joinWith c es h, flatSplit_of_sepfree c es hfree]

theorem set_get?_self {α : Type} (l : List α) (i : Nat) (a : α)
    (h : l.get? i = some a) : l.set i a = l := by
  induction l generalizing i with
  | nil => rfl
  | cons x t ih =>
    cases i with
    | zero =>
      simp only [List.get?] at h
      cases h
      rfl
    | succ n =>
      simp only [List.get?] at h
      simp [List.set, ih n h]

theorem get?_eq_some_getD {α : Type} (l : List α) (i : Nat) (d : α)
    (h : i < l.length) : l.get? i = some (l.getD i d) := by
  cases hgi : l.get? i with
  | none =>
    rw [List.get?_eq_none] at hgi
    omega
  | some v => rw [List.getD_eq_getD_get?, hgi]; rfl

theorem getD_zero_eq_headD {α : Type} (l : List α) (d : α) :
    l.getD 0 d = l.headD d := by
  cases l <;> rfl

theorem headD_append_of_ne_nil {α : Type} (A B : List α) (d : α) (h : A ≠ []) :
    (A ++ B).headD d = A.headD d := by
  cases A with
  | nil => exact absurd rfl h
  | cons a t => rfl

theorem getD_mem {α : Type} (l : List α) (n : Nat) (d : α) (h : n < l.length) :
    l.getD n d ∈ l := by
  rw [List.getD_eq_getD_get?]
  cases hgi : l.get? n with
  | none =>
    rw [List.get?_eq_none] at hgi
    omega
  | some v =>
    simp only [Option.getD_some]
    exact List.get?_mem hgi

/-! Facts about hash runs and masking. -/

theorem allHash_nil : allHash [] := rfl

theorem allHash_hashRun (k : Nat) : allHash (hashRun k) := by
  simp [allHash, hashRun]

theorem not_mem_hashRun (c : Char) (h : c ≠ '#') (k : Nat) : c ∉ hashRun k := by
  simp only [hashRun, List.mem_replicate, not_and]
  intro _
  exact h

theorem mem_splitOnChar_allHash (c : Char) (e : Str) (he : allHash e) :
    ∀ x ∈ splitOnChar c e, allHash x := by
  by_cases hc : c = '#'
  · subst hc
    rw [he, hashRun, splitOnChar_replicate]
    intro x hx
    rw [List.eq_of_mem_replicate hx]
    exact allHash_nil
  · rw [splitOnChar_of_not_mem c e (by rw [he]; exact not_mem_hashRun c hc _)]
    intro x hx
    rw [List.mem_singleton] at hx
    subst hx
    exact he

theorem headD_allHash_of_allHash (c : Char) (e : Str) (he : allHash e) :
    allHash ((splitOnChar c e).headD []) := by
  obtain ⟨h, t, hs⟩ := List.exists_cons_of_ne_nil (splitOnChar_ne_nil c e)
  have hmem : h ∈ splitOnChar c e := by
    rw [hs]; exact List.mem_cons_self h t
  rw [hs]
  exact mem_splitOnChar_allHash c e he h hmem

theorem maskIdx_of_len_le (es : List Str) (i : Nat) (h : es.length ≤ i) :
    maskIdx es i = es := by
  unfold maskIdx
  rw [if_neg (fun hc => Nat.not_lt.mpr h hc.1)]

theorem maskIdx_eq_self_of_allHash (es : List Str) (i : Nat)
    (h : allHash (es.getD i [])) : maskIdx es i = es := by
  unfold maskIdx
  split_ifs with hc
  · rw [← h]
    exact set_get?_self es i _ (get?_eq_some_getD es i [] hc.1)
  · rfl

theorem set_hashRun_self (es : List Str) (i : Nat) (hlen : i < es.length)
    (h : allHash (es.getD i [])) :
    es.set i (hashRun (es.getD i []).length) = es := by
  rw [← h]
  exact set_get?_self es i _ (get?_eq_some_getD es i [] hlen)

theorem maskAt_eq (es : List Str) (i : Nat) : maskAt es i = some (maskIdx es i) := by
  unfold maskAt maskIdx
  by_cases hlen : i < es.length
  · rw [if_pos hlen, get?_eq_some_getD es i [] hlen]
    by_cases hne : es.getD i [] ≠ []
    · rw [if_pos ⟨hlen, hne⟩]
      simp only [if_pos hne]
    · rw [if_neg (fun hc => hne hc.2)]
      simp only [if_neg hne]
  · rw [if_neg hlen, if_neg (fun hc => hlen hc.1)]

theorem mask_one_segment_eq (sep : Char) (seg : Str) :
    mask_one_segment sep seg = some (maskPure sep seg) := by
  obtain ⟨tag, rest, hs⟩ := List.exists_cons_of_ne_nil (splitOnChar_ne_nil sep seg)
  unfold mask_one_segment maskPure
  rw [hs]
  simp only [List.headD]
  by_cases hBEG : tag = ['B', 'E', 'G'] ∧ 5 < (tag :: rest).length
  · rw [if_pos hBEG, if_pos hBEG, get?_eq_some_getD _ 5 [] hBEG.2]
  · rw [if_neg hBEG, if_neg hBEG]
    by_cases hDTM : tag = ['D', 'T', 'M']
    · rw [if_pos hDTM, if_pos hDTM]
      simp only [maskAt_eq]
    · rw [if_neg hDTM, if_neg hDTM]

theorem maskPure_fixed (sep : Char) (o : Str)
    (hBEG : (splitOnChar sep o).headD [] = ['B', 'E', 'G'] ∧
        5 < (splitOnChar sep o).length →
      allHash ((splitOnChar sep o).getD 5 []))
    (hDTM : (splitOnChar sep o).headD [] = ['D', 'T', 'M'] →
      allHash ((splitOnChar sep o).getD 2 []) ∧
        allHash ((splitOnChar sep o).getD 3 [])) :
    maskPure sep o = o := by
  unfold maskPure
  split_ifs with h1 h2
  · rw [set_hashRun_self _ 5 h1.2 (hBEG h1), joinWith_splitOnChar]
  · obtain ⟨ha2, ha3⟩ := hDTM h2
    rw [maskIdx_eq_self_of_allHash _ 2 ha2, maskIdx_eq_self_of_allHash _ 3 ha3,
      joinWith_splitOnChar]
  · exact joinWith_splitOnChar sep o

theorem resplit_set (sep : Char) (es : List Str) (i : Nat) (R : Str)
    (hes : ∀ e ∈ es, sep ∉ e) (hi : i < es.length) :
    splitOnChar sep (joinWith sep (es.set i R)) =
      es.take i ++ splitOnChar sep R ++ es.drop (i + 1) := by
  rw [List.set_eq_take_cons_drop R hi,
    splitOnChar_joinWith sep _ (by simp),
    flatSplit_append, flatSplit_cons,
    flatSplit_of_sepfree sep _ (fun e he => hes e (List.mem_of_mem_take he)),
    flatSplit_of_sepfree sep _ (fun e he => hes e (List.mem_of_mem_drop he)),
    List.append_assoc]

theorem flat_allHash_positions (c : Char) (E2 : Str) (tl : List Str)
    (h2 : allHash E2) (h3 : allHash (tl.headD [])) :
    allHash ((flatSplit c (E2 :: tl)).getD 0 []) ∧
      allHash ((flatSplit c (E2 :: tl)).getD 1 []) := by
  have hpos : 0 < (splitOnChar c E2).length :=
    List.length_pos.mpr (splitOnChar_ne_nil c E2)
  constructor
  · rw [flatSplit_cons, List.getD_append _ _ _ _ hpos, getD_zero_eq_headD]
    exact headD_allHash_of_allHash c E2 h2
  · rw [flatSplit_cons]
    by_cases hlen : 1 < (splitOnChar c E2).length
    · rw [List.getD_append _ _ _ _ hlen]
      exact mem_splitOnChar_allHash c E2 h2 _ (getD_mem _ 1 [] hlen)
    · have h1 : (splitOnChar c E2).length = 1 := by omega
      rw [List.getD_append_right _ _ _ _ (by omega), h1]
      cases tl with
      | nil => exact allHash_nil
      | cons E3 B =>
        have hpos3 : 0 < (splitOnChar c E3).length :=
          List.length_pos.mpr (splitOnChar_ne_nil c E3)
        rw [flatSplit_cons, List.getD_append _ _ _ _ hpos3, getD_zero_eq_headD]
        exact headD_allHash_of_allHash c E3 (by simpa using h3)

theorem maskIdx_cons2_ne (a b e : Str) (t : List Str) (he : e ≠ []) :
    maskIdx (a :: b :: e :: t) 2 = a :: b :: hashRun e.length :: t := by
  unfold maskIdx
  rw [if_pos ⟨by simp, by simpa using he⟩]
  rfl

theorem maskIdx_cons2_nil (a b : Str) (t : List Str) :
    maskIdx (a :: b :: [] :: t) 2 = a :: b :: [] :: t := by
  unfold maskIdx
  rw [if_neg (fun hc => hc.2 rfl)]

theorem maskIdx_cons3_ne (a b x e : Str) (t : List Str) (he : e ≠ []) :
    maskIdx (a :: b :: x :: e :: t) 3 = a :: b :: x :: hashRun e.length :: t := by
  unfold maskIdx
  rw [if_pos ⟨by simp, by simpa using he⟩]
  rfl

theorem maskIdx_cons3_nil (a b x : Str) (t : List Str) :
    maskIdx (a :: b :: x :: [] :: t) 3 = a :: b :: x :: [] :: t := by
  unfold maskIdx
  rw [if_neg (fun hc => hc.2 rfl)]

theorem maskPure_idem_BEG (sep : Char) (seg : Str)
    (hB : (splitOnChar sep seg).headD [] = ['B', 'E', 'G'])
    (hlen : 5 < (splitOnChar sep seg).length) :
    maskPure sep (maskPure sep seg) = maskPure sep seg := by
  have hfree := not_mem_of_mem_splitOnChar sep seg
  have ho : maskPure sep seg = joinWith sep ((splitOnChar sep seg).set 5
      (hashRun ((splitOnChar sep seg).getD 5 []).length)) := by
    unfold maskPure
    rw [if_pos ⟨hB, hlen⟩]
  have hresplit : splitOnChar sep (maskPure sep seg) =
      (splitOnChar sep seg).take 5 ++
        splitOnChar sep (hashRun ((splitOnChar sep seg).getD 5 []).length) ++
        (splitOnChar sep seg).drop 6 := by
    rw [ho]
    exact resplit_set sep _ 5 _ hfree (by omega)
  obtain ⟨tag, rest, hs⟩ := List.exists_cons_of_ne_nil (splitOnChar_ne_nil sep seg)
  have htag : tag = ['B', 'E', 'G'] := by rw [hs] at hB; simpa using hB
  have hhead : (splitOnChar sep (maskPure sep seg)).headD [] = tag := by
    rw [hresplit, hs, List.take_succ_cons,
      headD_append_of_ne_nil _ _ _ (by simp), headD_append_of_ne_nil _ _ _ (by simp)]
    rfl
  have hlen5 : ((splitOnChar sep seg).take 5).length = 5 := by
    rw [List.length_take]
    omega
  have hg5 : allHash ((splitOnChar sep (maskPure sep seg)).getD 5 []) := by
    rw [hresplit, List.append_assoc,
      List.getD_append_right _ _ _ _ (by omega), hlen5]
    simp only [Nat.sub_self]
    rw [List.getD_append _ _ _ _ (List.length_pos.mpr (splitOnChar_ne_nil sep _)),
      getD_zero_eq_headD]
    exact headD_allHash_of_allHash sep _ (allHash_hashRun _)
  refine maskPure_fixed sep (maskPure sep seg) (fun _ => hg5) (fun hd => ?_)
  rw [hhead, htag] at hd
  exact absurd hd (by decide)

theorem maskPure_idem_DTM (sep : Char) (seg : Str)
    (hD : (splitOnChar sep seg).headD [] = ['D', 'T', 'M']) :
    maskPure sep (maskPure sep seg) = maskPure sep seg := by
  have hfree := not_mem_of_mem_splitOnChar sep seg
  have hnB : ¬ ((splitOnChar sep seg).headD [] = ['B', 'E', 'G'] ∧
      5 < (splitOnChar sep seg).length) := by
    intro hc
    rw [hD] at hc
    exact absurd hc.1 (by decide)
  have ho : maskPure sep seg =
      joinWith sep (maskIdx (maskIdx (splitOnChar sep seg) 2) 3) := by
    unfold maskPure
    rw [if_neg hnB, if_pos hD]
  obtain ⟨tag, rest, hs⟩ := List.exists_cons_of_ne_nil (splitOnChar_ne_nil sep seg)
  have htag : tag = ['D', 'T', 'M'] := by rw [hs] at hD; simpa using hD
  match rest with
  | [] =>
    have hseg : maskPure sep seg = seg := by
      rw [ho, hs, maskIdx_of_len_le _ 2 (by simp), maskIdx_of_len_le _ 3 (by simp),
        ← hs, joinWith_splitOnChar]
    rw [hseg]
    exact hseg
  | [e1] =>
    have hseg : maskPure sep seg = seg := by
      rw [ho, hs, maskIdx_of_len_le _ 2 (by simp), maskIdx_of_len_le _ 3 (by simp),
        ← hs, joinWith_splitOnChar]
    rw [hseg]
    exact hseg
  | e1 :: e2 :: tail =>
    have htagfree : sep ∉ tag := hfree tag (by rw [hs]; simp)
    have he1free : sep ∉ e1 := hfree e1 (by rw [hs]; simp)
    have hM : ∃ E2 tl2, maskIdx (maskIdx (tag :: e1 :: e2 :: tail) 2) 3 =
        tag :: e1 :: E2 :: tl2 ∧ allHash E2 ∧ allHash (tl2.headD []) := by
      by_cases h2 : e2 = []
      · subst h2
        rw [maskIdx_cons2_nil]
        cases tail with
        | nil =>
          rw [maskIdx_of_len_le _ 3 (by simp)]
          exact ⟨[], [], rfl, allHash_nil, allHash_nil⟩
        | cons e3 B =>
          by_cases h3 : e3 = []
          · subst h3
            rw [maskIdx_cons3_nil]
            exact ⟨[], [] :: B, rfl, allHash_nil, allHash_nil⟩
          · rw [maskIdx_cons3_ne _ _ _ _ _ h3]
            exact ⟨[], hashRun e3.length :: B, rfl, allHash_nil, allHash_hashRun _⟩
      · rw [maskIdx_cons2_ne _ _ _ _ h2]
        cases tail with
        | nil =>
          rw [maskIdx_of_len_le _ 3 (by simp)]
          exact ⟨hashRun e2.length, [], rfl, allHash_hashRun _, allHash_nil⟩
        | cons e3 B =>
          by_cases h3 : e3 = []
          · subst h3
            rw [maskIdx_cons3_nil]
            exact ⟨hashRun e2.length, [] :: B, rfl, allHash_hashRun _, allHash_nil⟩
          · rw [maskIdx_cons3_ne _ _ _ _ _ h3]
            exact ⟨hashRun e2.length, hashRun e3.length :: B, rfl,
              allHash_hashRun _, allHash_hashRun _⟩
    obtain ⟨E2, tl2, hMeq, hE2, htl2⟩ := hM
    have hsplit_o : splitOnChar sep (maskPure sep seg) =
        tag :: e1 :: flatSplit sep (E2 :: tl2) := by
      rw [ho, hs, hMeq, splitOnChar_joinWith sep _ (by simp),
        flatSplit_cons, flatSplit_cons,
        splitOnChar_of_not_mem sep tag htagfree,
        splitOnChar_of_not_mem sep e1 he1free]
      rfl
    obtain ⟨hA0, hA1⟩ := flat_allHash_positions sep E2 tl2 hE2 htl2
    refine maskPure_fixed sep (maskPure sep seg) (fun hc => ?_) (fun _ => ?_)
    · rw [hsplit_o] at hc
      have hc1 := hc.1
      simp only [List.headD] at hc1
      rw [htag] at hc1
      exact absurd hc1 (by decide)
    · rw [hsplit_o]
      exact ⟨hA0, hA1⟩

theorem maskPure_idem (sep : Char) (seg : Str) :
    maskPure sep (maskPure sep seg) = maskPure sep seg := by
  by_cases hB : (splitOnChar sep seg).headD [] = ['B', 'E', 'G'] ∧
      5 < (splitOnChar sep seg).length
  · exact maskPure_idem_BEG sep seg hB.1 hB.2
  · by_cases hD : (splitOnChar sep seg).headD [] = ['D', 'T', 'M']
    · exact maskPure_idem_DTM sep seg hD
    · have hseg : maskPure sep seg = seg := by
        unfold maskPure
        rw [if_neg hB, if_neg hD, joinWith_splitOnChar]
      rw [hseg]
      exact hseg

theorem mask_dates_times_eq_map (segs : List Str) (sep : Char) :
    mask_dates_times segs sep = segs.map (maskPure sep) := by
  induction segs with
  | nil => rfl
  | cons seg rest ih =>
    simp only [mask_dates_times, List.filterMap_cons, mask_one_segment_eq,
      List.map_cons]
    rw [← ih]
    rfl

/-! Unpacking a successful parse. -/

theorem parse_edi_ok_elim (t : Str) (p : ParsedEdi) (h : parse_edi t = .ok p) :
    ∃ isa_segment, (splitOnChar '~' t).find? startsWithISA = some isa_segment ∧
      isa_segment.get? 3 = some p.separators.data_element ∧
      p.separators.segment = '~' ∧
      (106 ≤ isa_segment.length →
        isa_segment.get? (isa_segment.length - 2) = some p.separators.sub_element) ∧
      (¬ 106 ≤ isa_segment.length → p.separators.sub_element = ':') ∧
      p.isa = ((splitOnChar '~' t).foldl (stepSegment p.separators.data_element)
        ⟨emptyIsa, emptyGs, [], false⟩).isa ∧
      p.gs = ((splitOnChar '~' t).foldl (stepSegment p.separators.data_element)
        ⟨emptyIsa, emptyGs, [], false⟩).gs ∧
      p.inner_payload = ((splitOnChar '~' t).foldl
        (stepSegment p.separators.data_element)
        ⟨emptyIsa, emptyGs, [], false⟩).inner_payload := by
  unfold parse_edi at h
  cases hfind : (splitOnChar '~' t).find? startsWithISA with
  | none =>
    simp only [hfind] at h
    exact Except.noConfusion h
  | some isa_segment =>
    simp only [hfind] at h
    cases hget : isa_segment.get? 3 with
    | none =>
      simp only [hget] at h
      exact Except.noConfusion h
    | some dsep =>
      simp only [hget] at h
      cases hsub : (if 106 ≤ isa_segment.length then
          isa_segment.get? (isa_segment.length - 2) else some ':') with
      | none =>
        simp only [hsub] at h
        exact Except.noConfusion h
      | some ssep =>
        simp only [hsub] at h
        have h' : (⟨⟨dsep, ssep, '~'⟩,
            ((splitOnChar '~' t).foldl (stepSegment dsep)
              ⟨emptyIsa, emptyGs, [], false⟩).isa,
            ((splitOnChar '~' t).foldl (stepSegment dsep)
              ⟨emptyIsa, emptyGs, [], false⟩).gs,
            ((splitOnChar '~' t).foldl (stepSegment dsep)
              ⟨emptyIsa, emptyGs, [], false⟩).inner_payload⟩ : ParsedEdi) = p := by
          injection h
        subst h'
        refine ⟨isa_segment, rfl, hget, rfl, ?_, ?_, rfl, rfl, rfl⟩
        · intro h106
          rw [if_pos h106] at hsub
          exact hsub
        · intro h106
          rw [if_neg h106] at hsub
          injection hsub with h2
          rw [h2]

/-! Relating the parser loop to its payload projection. -/

theorem stepSegment_payload (sep : Char) (st : ParseState) (seg : Str) :
    (stepSegment sep st seg).capture_payload =
      (payloadStep sep (st.capture_payload, st.inner_payload) seg).1 ∧
    (stepSegment sep st seg).inner_payload =
      (payloadStep sep (st.capture_payload, st.inner_payload) seg).2 := by
  cases hsplit : splitOnChar sep seg with
  | nil => simp [stepSegment, payloadStep, hsplit]
  | cons e0 rest =>
    simp only [stepSegment, payloadStep, hsplit]
    split_ifs <;> exact ⟨rfl, rfl⟩

theorem foldl_payload_agree (sep : Char) (segs : List Str) (st : ParseState) :
    (segs.foldl (stepSegment sep) st).capture_payload =
      (segs.foldl (payloadStep sep) (st.capture_payload, st.inner_payload)).1 ∧
    (segs.foldl (stepSegment sep) st).inner_payload =
      (segs.foldl (payloadStep sep) (st.capture_payload, st.inner_payload)).2 := by
  induction segs generalizing st with
  | nil => exact ⟨rfl, rfl⟩
  | cons seg rest ih =>
    simp only [List.foldl_cons]
    have hstep := stepSegment_payload sep st seg
    have hpair : payloadStep sep (st.capture_payload, st.inner_payload) seg =
        ((stepSegment sep st seg).capture_payload,
          (stepSegment sep st seg).inner_payload) := by
      rw [hstep.1, hstep.2]
    rw [hpair]
    exact ih (stepSegment sep st seg)

theorem two_le_splitOnChar_length (c : Char) (s : Str) (h : c ∈ s) :
    2 ≤ (splitOnChar c s).length := by
  induction s with
  | nil => cases h
  | cons x xs ih =>
    simp only [splitOnChar]
    by_cases hx : x = c
    · rw [if_pos hx]
      have hpos := List.length_pos.mpr (splitOnChar_ne_nil c xs)
      simp only [List.length_cons]
      omega
    · rw [if_neg hx]
      have hmem : c ∈ xs := by
        rcases List.mem_cons.mp h with h1 | h1
        · exact absurd h1.symm hx
        · exact h1
      have h2 := ih hmem
      obtain ⟨hd, tl, hsplit⟩ := List.exists_cons_of_ne_nil (splitOnChar_ne_nil c xs)
      rw [hsplit]
      rw [hsplit] at h2
      simp only [consHead, List.length_cons]
      simpa using h2

/-! Claim theorems. -/

/-- Claim C9: masking is idempotent — for every payload sequence and element
    delimiter, normalizing an already-normalized payload returns an identical
    result. -/
theorem mask_dates_times_idempotent (segs : List Str) (sep : Char) :
    mask_dates_times (mask_dates_times segs sep) sep =
      mask_dates_times segs sep := by
  rw [mask_dates_times_eq_map, mask_dates_times_eq_map, List.map_map]
  refine List.map_congr_left (fun seg _ => ?_)
  exact maskPure_idem sep seg

/-- Claim C10: mask_dates_times never drops a segment — the per-segment pass
    never fails (so the except and empty-split continue branches are
    unreachable) and the output has exactly one segment per input segment, in
    the original order. -/
theorem mask_dates_times_no_drop (segs : List Str) (sep : Char) :
    (∀ seg : Str, mask_one_segment sep seg ≠ none) ∧
    (mask_dates_times segs sep).length = segs.length ∧
    mask_dates_times segs sep =
      segs.map (fun seg => (mask_one_segment sep seg).getD seg) := by
  refine ⟨fun seg => ?_, ?_, ?_⟩
  · rw [mask_one_segment_eq]
    simp
  · rw [mask_dates_times_eq_map, List.length_map]
  · rw [mask_dates_times_eq_map]
    refine List.map_congr_left (fun seg _ => ?_)
    rw [mask_one_segment_eq]
    rfl

/-- Claim C3: per-segment masking rules — a BEG segment with more than five
    elements gets element 5 replaced by a same-length hash run, a DTM segment
    gets elements 2 and 3 each independently replaced when present and
    non-empty, any other tag passes through unmodified, elements are rejoined
    with the same delimiter, and the output preserves the input order. -/
theorem mask_dates_times_segment_rules (sep : Char) (seg : Str)
    (segs : List Str) :
    ((splitOnChar sep seg).headD [] = ['B', 'E', 'G'] →
      5 < (splitOnChar sep seg).length →
      mask_dates_times [seg] sep = [joinWith sep ((splitOnChar sep seg).set 5
        (hashRun ((splitOnChar sep seg).getD 5 []).length))]) ∧
    ((splitOnChar sep seg).headD [] = ['D', 'T', 'M'] →
      mask_dates_times [seg] sep = [joinWith sep
        (maskIdx (maskIdx (splitOnChar sep seg) 2) 3)]) ∧
    ((splitOnChar sep seg).headD [] ≠ ['B', 'E', 'G'] →
      (splitOnChar sep seg).headD [] ≠ ['D', 'T', 'M'] →
      mask_dates_times [seg] sep = [seg]) ∧
    mask_dates_times (seg :: segs) sep =
      mask_dates_times [seg] sep ++ mask_dates_times segs sep := by
  have hone : mask_dates_times [seg] sep = [maskPure sep seg] := by
    rw [mask_dates_times_eq_map]
    rfl
  refine ⟨fun hB hlen => ?_, fun hD => ?_, fun hnB hnD => ?_, ?_⟩
  · rw [hone]
    unfold maskPure
    rw [if_pos ⟨hB, hlen⟩]
  · have hnB : ¬ ((splitOnChar sep seg).headD [] = ['B', 'E', 'G'] ∧
        5 < (splitOnChar sep seg).length) := by
      intro hc
      rw [hD] at hc
      exact absurd hc.1 (by decide)
    rw [hone]
    unfold maskPure
    rw [if_neg hnB, if_pos hD]
  · rw [hone]
    unfold maskPure
    rw [if_neg (fun hc => hnB hc.1), if_neg hnD, joinWith_splitOnChar]
  · rw [mask_dates_times_eq_map, mask_dates_times_eq_map,
      mask_dates_times_eq_map]
    rfl

/-- Witness for claim C3 at a concrete BEG segment with seven-character date
    field masked to seven hashes. -/
theorem mask_dates_times_segment_rules_witness :
    (splitOnChar '*' (str "BEG*00*SA*123**20240101")).headD [] =
      ['B', 'E', 'G'] ∧
    5 < (splitOnChar '*' (str "BEG*00*SA*123**20240101")).length ∧
    mask_dates_times [str "BEG*00*SA*123**20240101"] '*' =
      [joinWith '*' ((splitOnChar '*' (str "BEG*00*SA*123**20240101")).set 5
        (hashRun ((splitOnChar '*'
          (str "BEG*00*SA*123**20240101")).getD 5 []).length))] :=
  ⟨by decide, by decide,
    (mask_dates_times_segment_rules '*' (str "BEG*00*SA*123**20240101") []).1
      (by decide) (by decide)⟩

/-- Claim C2: the delimiter set of a parseable document — the element
    delimiter is the character at position 3 of the first ISA-prefixed
    segment, the segment delimiter is the tilde, and the sub-element
    delimiter is the character at offset length minus two of that segment
    when it is at least 106 characters long, else the colon. -/
theorem parse_edi_delimiters (t : Str) (p : ParsedEdi) (isa_segment : Str)
    (hp : parse_edi t = .ok p)
    (hfind : (splitOnChar '~' t).find? startsWithISA = some isa_segment) :
    isa_segment.get? 3 = some p.separators.data_element ∧
    p.separators.segment = '~' ∧
    (106 ≤ isa_segment.length →
      isa_segment.get? (isa_segment.length - 2) = some p.separators.sub_element) ∧
    (isa_segment.length < 106 → p.separators.sub_element = ':') := by
  obtain ⟨isa2, hfind2, h3, hseg, hsubyes, hsubno, _, _, _⟩ :=
    parse_edi_ok_elim t p hp
  rw [hfind] at hfind2
  injection hfind2 with he
  subst he
  exact ⟨h3, hseg, hsubyes, fun hlt => hsubno (by omega)⟩

/-- Witness for claim C2 at a five-character document. -/
theorem parse_edi_delimiters_witness :
    (str "ISA*x").get? 3 = some '*' ∧
    ('~' : Char) = '~' ∧
    (106 ≤ (str "ISA*x").length →
      (str "ISA*x").get? ((str "ISA*x").length - 2) = some ':') ∧
    ((str "ISA*x").length < 106 → (':' : Char) = ':') :=
  parse_edi_delimiters (str "ISA*x")
    ⟨⟨'*', ':', '~'⟩, emptyIsa, emptyGs, []⟩ (str "ISA*x")
    (by decide) (by decide)

/-- Claim C7: when the first ISA-prefixed segment is shorter than four
    characters, parse_edi signals a controlled error rather than producing a
    document with a guessed delimiter. -/
theorem short_isa_segment_errors (t : Str) (isa_segment : Str)
    (hfind : (splitOnChar '~' t).find? startsWithISA = some isa_segment)
    (hshort : isa_segment.length < 4) :
    parse_edi t = .error .indexError := by
  have hnone : isa_segment.get? 3 = none := List.get?_eq_none.mpr (by omega)
  simp only [parse_edi, hfind, hnone]

/-- Witness for claim C7 at the three-character document ISA. -/
theorem short_isa_segment_errors_witness :
    parse_edi (str "ISA") = .error .indexError :=
  short_isa_segment_errors (str "ISA") (str "ISA") (by decide) (by decide)

/-- Claim C6: parse_edi fails with the missing-envelope error exactly when no
    tilde-separated segment of the text starts with ISA, and a parse failure
    on either side propagates out of compare_pair unchanged, aborting that
    pair. -/
theorem missing_isa_iff_and_propagation (t t1 t2 n1 n2 : Str) (e : EdiError) :
    (parse_edi t = .error .missingISA ↔
      ∀ seg ∈ splitOnChar '~' t, ¬ startsWithISA seg = true) ∧
    (parse_edi t1 = .error e → compare_pair n1 n2 t1 t2 = .error e) ∧
    (∀ p1, parse_edi t1 = .ok p1 → parse_edi t2 = .error e →
      compare_pair n1 n2 t1 t2 = .error e) := by
  refine ⟨⟨fun h => ?_, fun hall => ?_⟩, fun herr => ?_, fun p1 hok herr => ?_⟩
  · cases hfind : (splitOnChar '~' t).find? startsWithISA with
    | none => exact List.find?_eq_none.mp hfind
    | some isa =>
      exfalso
      simp only [parse_edi, hfind] at h
      cases hget : isa.get? 3 with
      | none =>
        simp only [hget] at h
        simp at h
      | some dsep =>
        simp only [hget] at h
        cases hsub : (if 106 ≤ isa.length then
            isa.get? (isa.length - 2) else some ':') with
        | none =>
          simp only [hsub] at h
          simp at h
        | some ssep =>
          simp only [hsub] at h
          exact Except.noConfusion h
  · have hfind : (splitOnChar '~' t).find? startsWithISA = none :=
      List.find?_eq_none.mpr hall
    simp [parse_edi, hfind]
  · simp only [compare_pair, herr]
  · simp only [compare_pair, hok, herr]

/-- Witness for claim C6: a document without an ISA segment fails with the
    missing-envelope error and compare_pair passes it through, whichever side
    it is on. -/
theorem missing_isa_iff_and_propagation_witness :
    parse_edi (str "XYZ") = .error .missingISA ∧
    compare_pair (str "a") (str "b") (str "XYZ") (str "ISA*x") =
      .error .missingISA ∧
    compare_pair (str "a") (str "b") (str "ISA*x") (str "XYZ") =
      .error .missingISA :=
  ⟨(missing_isa_iff_and_propagation (str "XYZ") (str "XYZ") (str "ISA*x")
      (str "a") (str "b") .missingISA).1.mpr (by decide),
   (missing_isa_iff_and_propagation (str "XYZ") (str "XYZ") (str "ISA*x")
      (str "a") (str "b") .missingISA).2.1 (by decide),
   (missing_isa_iff_and_propagation (str "XYZ") (str "ISA*x") (str "XYZ")
      (str "a") (str "b") .missingISA).2.2
     ⟨⟨'*', ':', '~'⟩, emptyIsa, emptyGs, []⟩ (by decide) (by decide)⟩

/-- Claim C1: for a pair of parseable documents compare_pair succeeds, its
    isa_match is true exactly when the four interchange header fields agree
    pairwise, gs_match exactly when the three group fields agree pairwise,
    and masked_match exactly when the two payloads, each masked with the
    element delimiter of its own document and joined with newlines, are
    equal. -/
theorem compare_pair_verdict_iff (n1 n2 t1 t2 : Str) (p1 p2 : ParsedEdi)
    (h1 : parse_edi t1 = .ok p1) (h2 : parse_edi t2 = .ok p2) :
    ∃ r, compare_pair n1 n2 t1 t2 = .ok r ∧
      (r.isa_match = true ↔
        (p1.isa.sender_qualifier = p2.isa.sender_qualifier ∧
         p1.isa.sender_id = p2.isa.sender_id ∧
         p1.isa.receiver_qualifier = p2.isa.receiver_qualifier ∧
         p1.isa.receiver_id = p2.isa.receiver_id)) ∧
      (r.gs_match = true ↔
        (p1.gs.gs01 = p2.gs.gs01 ∧ p1.gs.gs02 = p2.gs.gs02 ∧
         p1.gs.gs03 = p2.gs.gs03)) ∧
      (r.masked_match = true ↔
        joinWith '\n' (mask_dates_times p1.inner_payload
          p1.separators.data_element) =
        joinWith '\n' (mask_dates_times p2.inner_payload
          p2.separators.data_element)) := by
  simp only [compare_pair, h1, h2]
  refine ⟨_, rfl, ?_, ?_, ?_⟩ <;> simp

/-- Witness for claim C1 comparing a small document with itself. -/
theorem compare_pair_verdict_iff_witness :
    ∃ r, compare_pair (str "a") (str "b") (str "ISA*x~ST*1~A*1~SE*1")
        (str "ISA*x~ST*1~A*1~SE*1") = .ok r ∧
      (r.isa_match = true ↔
        (emptyIsa.sender_qualifier = emptyIsa.sender_qualifier ∧
         emptyIsa.sender_id = emptyIsa.sender_id ∧
         emptyIsa.receiver_qualifier = emptyIsa.receiver_qualifier ∧
         emptyIsa.receiver_id = emptyIsa.receiver_id)) ∧
      (r.gs_match = true ↔
        (emptyGs.gs01 = emptyGs.gs01 ∧ emptyGs.gs02 = emptyGs.gs02 ∧
         emptyGs.gs03 = emptyGs.gs03)) ∧
      (r.masked_match = true ↔
        joinWith '\n' (mask_dates_times [str "A*1"] '*') =
        joinWith '\n' (mask_dates_times [str "A*1"] '*')) :=
  compare_pair_verdict_iff (str "a") (str "b")
    (str "ISA*x~ST*1~A*1~SE*1") (str "ISA*x~ST*1~A*1~SE*1")
    ⟨⟨'*', ':', '~'⟩, emptyIsa, emptyGs, [str "A*1"]⟩
    ⟨⟨'*', ':', '~'⟩, emptyIsa, emptyGs, [str "A*1"]⟩
    (by decide) (by decide)

/-- Claim C8 fails as stated: these two documents have equal interchange
    header fields, equal group fields and equal payloads — structurally
    identical in the sense of the claim — yet compare_pair reports
    masked_match false, because they declare different element delimiters. -/
theorem identical_fields_compare_counterexample :
    parse_edi (str "ISA*a~ST*1~DTM*011*20240101~SE*1") =
      .ok ⟨⟨'*', ':', '~'⟩, emptyIsa, emptyGs, [str "DTM*011*20240101"]⟩ ∧
    parse_edi (str "ISA|a~ST|1~DTM*011*20240101~SE|1") =
      .ok ⟨⟨'|', ':', '~'⟩, emptyIsa, emptyGs, [str "DTM*011*20240101"]⟩ ∧
    compare_pair (str "a") (str "b")
      (str "ISA*a~ST*1~DTM*011*20240101~SE*1")
      (str "ISA|a~ST|1~DTM*011*20240101~SE|1") = .ok ⟨true, true, false⟩ :=
  ⟨by decide, by decide, by decide⟩

/-- Claim C8 amended: documents with equal interchange header fields, equal
    group fields, equal payloads and the same element delimiter compare with
    all three verdicts true; in particular any parseable document compared
    with itself yields all three true. -/
theorem compare_pair_identical_docs (n1 n2 : Str) :
    (∀ t1 t2 p1 p2, parse_edi t1 = .ok p1 → parse_edi t2 = .ok p2 →
      p1.isa = p2.isa → p1.gs = p2.gs →
      p1.inner_payload = p2.inner_payload →
      p1.separators.data_element = p2.separators.data_element →
      compare_pair n1 n2 t1 t2 = .ok ⟨true, true, true⟩) ∧
    (∀ t p, parse_edi t = .ok p →
      compare_pair n1 n2 t t = .ok ⟨true, true, true⟩) := by
  have hmain : ∀ t1 t2 p1 p2, parse_edi t1 = .ok p1 → parse_edi t2 = .ok p2 →
      p1.isa = p2.isa → p1.gs = p2.gs →
      p1.inner_payload = p2.inner_payload →
      p1.separators.data_element = p2.separators.data_element →
      compare_pair n1 n2 t1 t2 = .ok ⟨true, true, true⟩ := by
    intro t1 t2 p1 p2 h1 h2 hisa hgs hpay hsep
    simp only [compare_pair, h1, h2]
    rw [hisa, hgs, hpay, hsep]
    simp
  exact ⟨hmain, fun t p hp => hmain t t p p hp hp rfl rfl rfl rfl⟩

/-- Witness for the amended claim C8: a small document compared with itself
    yields all three verdicts true. -/
theorem compare_pair_identical_docs_witness :
    compare_pair (str "a") (str "b") (str "ISA*x~ST*1~A*1~SE*1")
      (str "ISA*x~ST*1~A*1~SE*1") = .ok ⟨true, true, true⟩ :=
  (compare_pair_identical_docs (str "a") (str "b")).2
    (str "ISA*x~ST*1~A*1~SE*1")
    ⟨⟨'*', ':', '~'⟩, emptyIsa, emptyGs, [str "A*1"]⟩ (by decide)

/-- Claim C4 fails as stated: in this document a GS-tagged segment occurs
    between ST and SE while capture is on, yet the parser leaves the payload
    empty, while the capture rule stated by the claim would collect it. -/
theorem payload_capture_claim_counterexample :
    parse_edi (str "ISA*x~ST*1~GS*a~SE*1") =
      .ok ⟨⟨'*', ':', '~'⟩, emptyIsa, ⟨str "a", [], []⟩, []⟩ ∧
    claimC4payload '*' (splitOnChar '~' (str "ISA*x~ST*1~GS*a~SE*1")) =
      [str "GS*a"] ∧
    ([] : List Str) ≠ [str "GS*a"] :=
  ⟨by decide, by decide, by decide⟩

/-- Claim C4 amended: the payload is exactly the ordered subsequence of raw
    segments that occur while capture is on, where a segment whose first
    element is ST turns capture on, SE turns it off, and segments whose first
    element is empty, ISA or GS are additionally excluded even while capture
    is on. -/
theorem parse_edi_payload_characterization (t : Str) (p : ParsedEdi)
    (h : parse_edi t = .ok p) :
    p.inner_payload = payloadOf p.separators.data_element (splitOnChar '~' t) := by
  obtain ⟨isa, _, _, _, _, _, _, _, hpay⟩ := parse_edi_ok_elim t p h
  rw [hpay]
  exact (foldl_payload_agree p.separators.data_element (splitOnChar '~' t)
    ⟨emptyIsa, emptyGs, [], false⟩).2

/-- Witness for the amended claim C4 at a small document with one captured
    segment. -/
theorem parse_edi_payload_characterization_witness :
    parse_edi (str "ISA*x~ST*1~A*1~SE*1") =
      .ok ⟨⟨'*', ':', '~'⟩, emptyIsa, emptyGs, [str "A*1"]⟩ ∧
    [str "A*1"] = payloadOf '*' (splitOnChar '~' (str "ISA*x~ST*1~A*1~SE*1")) :=
  ⟨by decide,
   parse_edi_payload_characterization (str "ISA*x~ST*1~A*1~SE*1")
     ⟨⟨'*', ':', '~'⟩, emptyIsa, emptyGs, [str "A*1"]⟩ (by decide)⟩

/-- Claim C5: batch pairing — a source filename without an underscore is
    silently excluded from both the result mapping and the aggregate list; an
    underscore-bearing source derives its key from the last underscore part
    truncated before its first dot, expects the target named first part, then
    bla underscore, then the key, then dot txt, is silently skipped when no
    target has exactly that name, and a matched source produces exactly one
    compare_pair record under the key. -/
theorem batch_pairing_rules (to_files pre post : List NamedDoc)
    (from_file : NamedDoc) (key target : Str)
    (hkey : key = (splitOnChar '.'
      ((splitOnChar '_' (basename from_file.name)).getLastD [])).headD [])
    (htarget : target =
      (splitOnChar '_' (basename from_file.name)).headD [] ++
        ['b', 'l', 'a', '_'] ++ key ++ ['.', 't', 'x', 't']) :
    (('_' ∉ basename from_file.name) →
      process_from_file to_files from_file = none ∧
      batch_process (pre ++ from_file :: post) to_files =
        batch_process pre to_files ++ batch_process post to_files) ∧
    ('_' ∈ basename from_file.name →
      (to_files_map to_files target = none →
        process_from_file to_files from_file = none) ∧
      (∀ to_file, to_files_map to_files target = some to_file →
        process_from_file to_files from_file = some ⟨key, target,
          compare_pair (basename from_file.name) target
            (stripNewlines from_file.content)
            (stripNewlines to_file.content)⟩ ∧
        batch_process (pre ++ from_file :: post) to_files =
          batch_process pre to_files ++ (⟨key, target,
            compare_pair (basename from_file.name) target
              (stripNewlines from_file.content)
              (stripNewlines to_file.content)⟩ : BatchEntry) ::
            batch_process post to_files)) := by
  constructor
  · intro hno
    have hpf : process_from_file to_files from_file = none := by
      simp only [process_from_file]
      rw [if_neg hno]
    refine ⟨hpf, ?_⟩
    unfold batch_process
    rw [List.filterMap_append, List.filterMap_cons, hpf]
  · intro hyes
    have hparts : ¬ ((splitOnChar '_' (basename from_file.name)).length < 2) :=
      Nat.not_lt.mpr (two_le_splitOnChar_length '_' _ hyes)
    have hproc : process_from_file to_files from_file =
        (match to_files_map to_files target with
         | none => none
         | some to_file => some ⟨key, target,
             compare_pair (basename from_file.name) target
               (stripNewlines from_file.content)
               (stripNewlines to_file.content)⟩) := by
      simp only [process_from_file]
      rw [if_pos hyes, if_neg hparts, ← hkey, ← htarget]
    constructor
    · intro hnone
      rw [hproc, hnone]
    · intro to_file htf
      have hsome : process_from_file to_files from_file = some ⟨key, target,
          compare_pair (basename from_file.name) target
            (stripNewlines from_file.content)
            (stripNewlines to_file.content)⟩ := by
        rw [hproc, htf]
      refine ⟨hsome, ?_⟩
      unfold batch_process
      rw [List.filterMap_append, List.filterMap_cons, hsome]

/-- Witness for claim C5 on the worked batch example: source
    order_aaa111.txt matched to target orderbla_aaa111.txt under key
    aaa111. -/
theorem batch_pairing_rules_witness :
    process_from_file [⟨str "orderbla_aaa111.txt", str "ISA*x"⟩]
        ⟨str "order_aaa111.txt", str "ISA*x"⟩ =
      some ⟨str "aaa111", str "orderbla_aaa111.txt",
        compare_pair (basename (str "order_aaa111.txt"))
          (str "orderbla_aaa111.txt")
          (stripNewlines (str "ISA*x")) (stripNewlines (str "ISA*x"))⟩ :=
  (((batch_pairing_rules [⟨str "orderbla_aaa111.txt", str "ISA*x"⟩] [] []
      ⟨str "order_aaa111.txt", str "ISA*x"⟩ (str "aaa111")
      (str "orderbla_aaa111.txt") (by decide) (by decide)).2
    (by decide)).2 ⟨str "orderbla_aaa111.txt", str "ISA*x"⟩ (by decide)).1


/-- Witness for claim C9 at a concrete payload whose delimiter is the hash
    character itself. -/
theorem mask_dates_times_idempotent_witness :
    mask_dates_times (mask_dates_times [str "DTM#a#bb"] '#') '#' =
      mask_dates_times [str "DTM#a#bb"] '#' :=
  mask_dates_times_idempotent [str "DTM#a#bb"] '#'

/-- Witness for claim C10 at a concrete DTM segment. -/
theorem mask_dates_times_no_drop_witness :
    mask_one_segment '*' (str "DTM*011*20240101") ≠ none ∧
    (mask_dates_times [str "DTM*011*20240101"] '*').length =
      ([str "DTM*011*20240101"] : List Str).length :=
  ⟨(mask_dates_times_no_drop [str "DTM*011*20240101"] '*').1
      (str "DTM*011*20240101"),
   (mask_dates_times_no_drop [str "DTM*011*20240101"] '*').2.1⟩

end EdiCompare
